import Mathlib

/-!
# Verification of the hospital federated-learning coordinator

Shallow embedding of the round-coordination core of the repository:

* `RoundManager` with `NewRoundManager`, `RecordUpdate`, `AdvanceRound`
  (source: `server/round_manager.go`);
* the server's aggregation and global-model read path
  (source: `server/main.go`: `aggregateUpdates`, `handleGetGlobalModel`,
  `handleSubmitUpdate`).

Go `int` fields are modelled as `Int`; Go `float64` weight vectors are
modelled as `ℚ` (exact arithmetic standing in for floating point); the
`map[string]bool` participant set is modelled as a duplicate-free
`List String` of its keys; a Go slice that may be `nil` is `Option`;
a Go runtime panic (index out of range) is `Option.none` of the whole
computation.
-/

/-- `RoundState` represents the current phase of a federated learning round
(source: `round_manager.go`, `RoundWaiting` / `RoundAggregating` /
`RoundComplete`). -/
inductive RoundState where
  | Waiting
  | Aggregating
  | Complete
deriving DecidableEq, Repr

/-- `RoundState.String()` from `round_manager.go`. -/
def RoundState.toStr : RoundState → String
  | .Waiting => "WAITING"
  | .Aggregating => "AGGREGATING"
  | .Complete => "COMPLETE"

/-- `RoundManager` tracks the state of the current federated learning round
(source: `round_manager.go`).  The mutex is concurrency plumbing and has no
pure content; `ReceivedClients` is the key set of the Go map. -/
structure RoundManager where
  CurrentRound : Int
  ExpectedClients : Int
  ReceivedClients : List String
  State : RoundState
deriving DecidableEq, Repr

/-- `NewRoundManager` creates a RoundManager for round 0 with the given
quorum size (source: `round_manager.go`). -/
def NewRoundManager (quorum : Int) : RoundManager :=
  { CurrentRound := 0
    ExpectedClients := quorum
    ReceivedClients := []
    State := RoundState.Waiting }

/-- `RoundManager.RecordUpdate(hospitalID, roundID)` from `round_manager.go`,
returning the updated manager together with `(accepted, quorumMet)`.
The code rejects on round mismatch, then on `State != RoundWaiting`, then on
a duplicate hospital; otherwise it inserts the hospital into the map and
reaches quorum when `len(ReceivedClients) >= ExpectedClients`. -/
def RecordUpdate (rm : RoundManager) (hospitalID : String) (roundID : Int) :
    RoundManager × Bool × Bool :=
  if roundID ≠ rm.CurrentRound then
    (rm, false, false)
  else if rm.State ≠ RoundState.Waiting then
    (rm, false, false)
  else if hospitalID ∈ rm.ReceivedClients then
    (rm, false, false)
  -- Go: rm.ReceivedClients[hospitalID] = true; received := len(rm.ReceivedClients)
  else if ((hospitalID :: rm.ReceivedClients).length : Int) ≥ rm.ExpectedClients then
    ({ rm with ReceivedClients := hospitalID :: rm.ReceivedClients,
               State := RoundState.Aggregating }, true, true)
  else
    ({ rm with ReceivedClients := hospitalID :: rm.ReceivedClients }, true, false)

/-- `RoundManager.AdvanceRound()` from `round_manager.go`: increments the
round, empties the participant set, returns to `WAITING`. -/
def AdvanceRound (rm : RoundManager) : RoundManager :=
  { rm with
      CurrentRound := rm.CurrentRound + 1
      ReceivedClients := []
      State := RoundState.Waiting }

/-- `RoundManager.Status()` from `round_manager.go`. -/
def Status (rm : RoundManager) : Int × Int × Nat × RoundState :=
  (rm.CurrentRound, rm.ExpectedClients, rm.ReceivedClients.length, rm.State)

/-- Running a sequence of `RecordUpdate` calls (hospitalID, roundID) through a
`RoundManager`, collecting each call's `(accepted, quorumMet)` result. -/
def runRecords (rm : RoundManager) : List (String × Int) → RoundManager × List (Bool × Bool)
  | [] => (rm, [])
  | c :: rest =>
    let step := RecordUpdate rm c.1 c.2
    let tail := runRecords step.1 rest
    (tail.1, (step.2.1, step.2.2) :: tail.2)

section BasicLemmas

/-- A rejected call returns the manager unchanged, with both flags false. -/
lemma recordUpdate_rejected_cases (rm : RoundManager) (h : String) (r : Int)
    (hrej : (RecordUpdate rm h r).2.1 = false) :
    RecordUpdate rm h r = (rm, false, false) := by
  by_cases h1 : r = rm.CurrentRound
  · by_cases h2 : rm.State = RoundState.Waiting
    · by_cases h3 : h ∈ rm.ReceivedClients
      · simp [RecordUpdate, h1, h2, h3]
      · exfalso
        unfold RecordUpdate at hrej
        rw [if_neg (by simp [h1]), if_neg (by simp [h2]), if_neg h3] at hrej
        split at hrej <;> simp at hrej
    · simp [RecordUpdate, h2]
  · simp [RecordUpdate, h1]

/-- When the manager is not in `WAITING`, every call is rejected and the
manager is unchanged. -/
lemma recordUpdate_not_waiting (rm : RoundManager) (h : String) (r : Int)
    (hs : rm.State ≠ RoundState.Waiting) :
    RecordUpdate rm h r = (rm, false, false) := by
  simp [RecordUpdate, hs]

/-- `RecordUpdate` never changes the quorum size or the round counter. -/
lemma recordUpdate_expected (rm : RoundManager) (h : String) (r : Int) :
    (RecordUpdate rm h r).1.ExpectedClients = rm.ExpectedClients ∧
    (RecordUpdate rm h r).1.CurrentRound = rm.CurrentRound := by
  unfold RecordUpdate
  split
  · exact ⟨rfl, rfl⟩
  · split
    · exact ⟨rfl, rfl⟩
    · split
      · exact ⟨rfl, rfl⟩
      · split <;> exact ⟨rfl, rfl⟩

end BasicLemmas

/-- C4: a submission whose `roundID` differs from `currentRound` — whether
smaller or larger — is rejected with the tracker left unchanged, in every
tracker state. -/
theorem recordUpdate_round_mismatch_rejected
    (rm : RoundManager) (hospitalID : String) (roundID : Int)
    (hr : roundID ≠ rm.CurrentRound) :
    RecordUpdate rm hospitalID roundID = (rm, false, false) := by
  simp [RecordUpdate, hr]

/-- Witness for C4: a call for round 5 against a fresh quorum-3 tracker
(current round 0) is rejected. -/
theorem recordUpdate_round_mismatch_rejected_witness :
    RecordUpdate (NewRoundManager 3) "H1" 5 = (NewRoundManager 3, false, false) :=
  recordUpdate_round_mismatch_rejected (NewRoundManager 3) "H1" 5 (by decide)

/-- C5: a hospital already recorded in the current round is rejected when it
submits again for the current round, whatever the rest of the state. -/
theorem recordUpdate_duplicate_rejected
    (rm : RoundManager) (hospitalID : String)
    (hmem : hospitalID ∈ rm.ReceivedClients) :
    RecordUpdate rm hospitalID rm.CurrentRound = (rm, false, false) := by
  by_cases h2 : rm.State = RoundState.Waiting
  · simp [RecordUpdate, h2, hmem]
  · simp [RecordUpdate, h2]

/-- Witness for C5: with "H1" already recorded for round 0, a second "H1"
submission for round 0 is rejected. -/
theorem recordUpdate_duplicate_rejected_witness :
    RecordUpdate
      { CurrentRound := 0, ExpectedClients := 3,
        ReceivedClients := ["H1"], State := RoundState.Waiting } "H1" 0 =
      ({ CurrentRound := 0, ExpectedClients := 3,
         ReceivedClients := ["H1"], State := RoundState.Waiting }, false, false) :=
  recordUpdate_duplicate_rejected
    { CurrentRound := 0, ExpectedClients := 3,
      ReceivedClients := ["H1"], State := RoundState.Waiting } "H1" (by decide)

/-- C6: after `AdvanceRound`, the round counter has increased by exactly 1,
the participant set is empty (received count 0), the state is `WAITING`, and
the quorum size is unchanged. -/
theorem advanceRound_spec (rm : RoundManager) :
    (AdvanceRound rm).CurrentRound = rm.CurrentRound + 1 ∧
    (AdvanceRound rm).ReceivedClients = [] ∧
    (AdvanceRound rm).State = RoundState.Waiting ∧
    (AdvanceRound rm).ExpectedClients = rm.ExpectedClients :=
  ⟨rfl, rfl, rfl, rfl⟩

/-- C9: every rejected `RecordUpdate` call leaves the whole `RoundManager`
(round, participant set, state, quorum size) unchanged. -/
theorem recordUpdate_rejected_no_mutation
    (rm : RoundManager) (hospitalID : String) (roundID : Int)
    (hrej : (RecordUpdate rm hospitalID roundID).2.1 = false) :
    (RecordUpdate rm hospitalID roundID).1 = rm := by
  rw [recordUpdate_rejected_cases rm hospitalID roundID hrej]

/-- Witness for C9: a stale-round rejection leaves the tracker unchanged. -/
theorem recordUpdate_rejected_no_mutation_witness :
    (RecordUpdate (NewRoundManager 3) "H1" 7).1 = NewRoundManager 3 :=
  recordUpdate_rejected_no_mutation (NewRoundManager 3) "H1" 7 (by decide)

section RunLemmas

/-- Once the round has left `WAITING` (quorum reached), every further call in
the round is rejected with output `(false, false)` and the manager is
unchanged. -/
lemma runRecords_not_waiting (calls : List (String × Int)) :
    ∀ rm : RoundManager, rm.State ≠ RoundState.Waiting →
      runRecords rm calls = (rm, calls.map fun _ => (false, false)) := by
  induction calls with
  | nil => intro rm _; rfl
  | cons c rest ih =>
    intro rm hs
    simp only [runRecords, recordUpdate_not_waiting rm c.1 c.2 hs, ih rm hs, List.map]

/-- One `RecordUpdate` step preserves the invariant "in `WAITING` the
recorded count is below quorum" (quorum size is untouched by the step). -/
lemma recordUpdate_waiting_below (rm : RoundManager) (h : String) (r : Int)
    (inv : rm.State = RoundState.Waiting →
      (rm.ReceivedClients.length : Int) < rm.ExpectedClients) :
    (RecordUpdate rm h r).1.State = RoundState.Waiting →
      ((RecordUpdate rm h r).1.ReceivedClients.length : Int) <
        (RecordUpdate rm h r).1.ExpectedClients := by
  by_cases h1 : r = rm.CurrentRound
  · by_cases h2 : rm.State = RoundState.Waiting
    · by_cases h3 : h ∈ rm.ReceivedClients
      · simpa [RecordUpdate, h1, h2, h3] using inv
      · unfold RecordUpdate
        rw [if_neg (by simp [h1]), if_neg (by simp [h2]), if_neg h3]
        split
        · intro hw; simp at hw
        · intro _
          simp only
          omega
    · simpa [RecordUpdate, h2] using inv
  · simpa [RecordUpdate, h1] using inv

/-- Running any call sequence preserves the below-quorum-while-waiting
invariant. -/
lemma runRecords_waiting_below (calls : List (String × Int)) :
    ∀ rm : RoundManager,
      (rm.State = RoundState.Waiting →
        (rm.ReceivedClients.length : Int) < rm.ExpectedClients) →
      ((runRecords rm calls).1.State = RoundState.Waiting →
        (((runRecords rm calls).1.ReceivedClients.length : Int) <
          (runRecords rm calls).1.ExpectedClients)) := by
  induction calls with
  | nil => intro rm inv; exact inv
  | cons c rest ih =>
    intro rm inv
    exact ih (RecordUpdate rm c.1 c.2).1 (recordUpdate_waiting_below rm c.1 c.2 inv)

/-- Running any call sequence never changes the quorum size. -/
lemma runRecords_expected (calls : List (String × Int)) :
    ∀ rm : RoundManager,
      (runRecords rm calls).1.ExpectedClients = rm.ExpectedClients := by
  induction calls with
  | nil => intro rm; rfl
  | cons c rest ih =>
    intro rm
    simpa [runRecords] using
      (ih (RecordUpdate rm c.1 c.2).1).trans (recordUpdate_expected rm c.1 c.2).1

end RunLemmas

/-- C1: starting a round fresh (empty participant set, `WAITING`, positive
quorum), split any call sequence of the round as `pre ++ c :: post`.  The
call `c` returns `quorumMet = true` exactly when it is accepted and brings
the recorded count from `quorumSize - 1` to `quorumSize`; such a call
transitions the manager to `AGGREGATING`, and every later call of the round
is rejected with output `(false, false)` — so `quorumMet = true` happens at
most once per round. -/
theorem recordUpdate_quorum_unique
    (rm₀ : RoundManager) (hfresh : rm₀.ReceivedClients = [])
    (hw : rm₀.State = RoundState.Waiting) (hq : 1 ≤ rm₀.ExpectedClients)
    (pre : List (String × Int)) (c : String × Int) (post : List (String × Int)) :
    ((RecordUpdate (runRecords rm₀ pre).1 c.1 c.2).2.2 = true ↔
      (RecordUpdate (runRecords rm₀ pre).1 c.1 c.2).2.1 = true ∧
      ((runRecords rm₀ pre).1.ReceivedClients.length : Int) =
        rm₀.ExpectedClients - 1) ∧
    ((RecordUpdate (runRecords rm₀ pre).1 c.1 c.2).2.2 = true →
      (RecordUpdate (runRecords rm₀ pre).1 c.1 c.2).1.State =
        RoundState.Aggregating ∧
      ∀ out ∈ (runRecords (RecordUpdate (runRecords rm₀ pre).1 c.1 c.2).1 post).2,
        out = (false, false)) := by
  set rm₁ := (runRecords rm₀ pre).1 with hrm₁
  have hE : rm₁.ExpectedClients = rm₀.ExpectedClients := runRecords_expected pre rm₀
  have hinv : rm₁.State = RoundState.Waiting →
      (rm₁.ReceivedClients.length : Int) < rm₁.ExpectedClients := by
    refine runRecords_waiting_below pre rm₀ ?_
    intro _
    rw [hfresh]
    simpa using hq
  by_cases h2 : rm₁.State = RoundState.Waiting
  · by_cases h1 : c.2 = rm₁.CurrentRound
    · by_cases h3 : c.1 ∈ rm₁.ReceivedClients
      · constructor
        · simp [RecordUpdate, h1, h2, h3]
        · intro habs
          exfalso
          rw [h1, recordUpdate_duplicate_rejected rm₁ c.1 h3] at habs
          simp at habs
      · have hcnt : (rm₁.ReceivedClients.length : Int) < rm₁.ExpectedClients := hinv h2
        have hstep : RecordUpdate rm₁ c.1 c.2 =
            if ((c.1 :: rm₁.ReceivedClients).length : Int) ≥ rm₁.ExpectedClients then
              ({ rm₁ with ReceivedClients := c.1 :: rm₁.ReceivedClients,
                          State := RoundState.Aggregating }, true, true)
            else
              ({ rm₁ with ReceivedClients := c.1 :: rm₁.ReceivedClients }, true, false) := by
          unfold RecordUpdate
          rw [if_neg (by simp [h1]), if_neg (by simp [h2]), if_neg h3]
        by_cases hge : ((c.1 :: rm₁.ReceivedClients).length : Int) ≥ rm₁.ExpectedClients
        · have hstep' : RecordUpdate rm₁ c.1 c.2 =
              ({ rm₁ with ReceivedClients := c.1 :: rm₁.ReceivedClients,
                          State := RoundState.Aggregating }, true, true) := by
            rw [hstep, if_pos hge]
          refine ⟨?_, ?_⟩
          · rw [hstep']
            simp only [List.length_cons] at hge
            constructor
            · intro _
              refine ⟨rfl, ?_⟩
              rw [← hE]
              push_cast at hge ⊢
              omega
            · intro _; rfl
          · intro _
            rw [hstep']
            refine ⟨rfl, ?_⟩
            intro out hout
            rw [runRecords_not_waiting post _ (by simp)] at hout
            simp at hout
            exact hout.2
        · have hstep' : RecordUpdate rm₁ c.1 c.2 =
              ({ rm₁ with ReceivedClients := c.1 :: rm₁.ReceivedClients }, true, false) := by
            rw [hstep, if_neg hge]
          rw [hstep']
          simp only [List.length_cons] at hge
          constructor
          · constructor
            · intro habs; simp at habs
            · rintro ⟨-, hlen⟩
              exfalso
              rw [← hE] at hlen
              push_cast at hge
              omega
          · intro habs; simp at habs
    · have : c.2 ≠ rm₁.CurrentRound := h1
      rw [recordUpdate_round_mismatch_rejected rm₁ c.1 c.2 this]
      simp
  · rw [recordUpdate_not_waiting rm₁ c.1 c.2 h2]
    simp

/-- Witness for C1: quorum 3, fresh round 0; after "H1", "H2", the call from
"H3" returns `quorumMet = true`, moves the round to `AGGREGATING`, and a
later call from "H4" is rejected with `(false, false)`. -/
theorem recordUpdate_quorum_unique_witness :
    (RecordUpdate (runRecords (NewRoundManager 3) [("H1", 0), ("H2", 0)]).1 "H3" 0).2.2 = true ∧
    (RecordUpdate (runRecords (NewRoundManager 3) [("H1", 0), ("H2", 0)]).1 "H3" 0).1.State =
      RoundState.Aggregating ∧
    ∀ out ∈ (runRecords
        (RecordUpdate (runRecords (NewRoundManager 3) [("H1", 0), ("H2", 0)]).1 "H3" 0).1
        [("H4", 0)]).2,
      out = (false, false) := by
  have h := recordUpdate_quorum_unique (NewRoundManager 3) rfl rfl (by decide)
    [("H1", 0), ("H2", 0)] ("H3", 0) [("H4", 0)]
  have hq3 : (RecordUpdate (runRecords (NewRoundManager 3) [("H1", 0), ("H2", 0)]).1
      "H3" 0).2.2 = true := by decide
  exact ⟨hq3, (h.2 hq3).1, (h.2 hq3).2⟩

/-- The operations through which a `RoundManager` is mutated in the server:
`RecordUpdate` (from `handleSubmitUpdate`) and `AdvanceRound` (from
`aggregateUpdates`). -/
inductive RMOp where
  | record (hospitalID : String) (roundID : Int)
  | advance
deriving DecidableEq, Repr

/-- One operation applied to a `RoundManager`. -/
def stepRM (rm : RoundManager) : RMOp → RoundManager
  | .record h r => (RecordUpdate rm h r).1
  | .advance => AdvanceRound rm

/-- A sequence of operations applied to a `RoundManager`. -/
def runRM (rm : RoundManager) (ops : List RMOp) : RoundManager :=
  ops.foldl stepRM rm

/-- The quorum size is constant along any operation sequence. -/
lemma runRM_expected (ops : List RMOp) :
    ∀ rm : RoundManager, (runRM rm ops).ExpectedClients = rm.ExpectedClients := by
  induction ops with
  | nil => intro rm; rfl
  | cons op rest ih =>
    intro rm
    have hstep : (stepRM rm op).ExpectedClients = rm.ExpectedClients := by
      cases op with
      | record h r => exact (recordUpdate_expected rm h r).1
      | advance => rfl
    exact (ih (stepRM rm op)).trans hstep

/-- The below-quorum-while-waiting invariant is preserved by every operation
sequence. -/
lemma runRM_waiting_below (ops : List RMOp) :
    ∀ rm : RoundManager,
      1 ≤ rm.ExpectedClients →
      (rm.State = RoundState.Waiting →
        (rm.ReceivedClients.length : Int) < rm.ExpectedClients) →
      ((runRM rm ops).State = RoundState.Waiting →
        ((runRM rm ops).ReceivedClients.length : Int) < (runRM rm ops).ExpectedClients) := by
  induction ops with
  | nil => intro rm _ inv; exact inv
  | cons op rest ih =>
    intro rm hq inv
    have hqs : 1 ≤ (stepRM rm op).ExpectedClients := by
      cases op with
      | record h r =>
        simp only [stepRM]
        rw [(recordUpdate_expected rm h r).1]
        exact hq
      | advance => exact hq
    refine ih (stepRM rm op) hqs ?_
    cases op with
    | record h r => exact recordUpdate_waiting_below rm h r inv
    | advance =>
      intro _
      simp only [stepRM, AdvanceRound, List.length_nil, Int.ofNat_zero]
      omega

/-- C10: for every `RoundManager` constructed with a positive quorum and
every sequence of `RecordUpdate` / `AdvanceRound` operations, whenever the
reachable state is `WAITING` its recorded-participant count is strictly
below the quorum size. -/
theorem reachable_waiting_below_quorum (quorum : Int) (hq : 1 ≤ quorum)
    (ops : List RMOp)
    (hw : (runRM (NewRoundManager quorum) ops).State = RoundState.Waiting) :
    ((runRM (NewRoundManager quorum) ops).ReceivedClients.length : Int) < quorum := by
  have h := runRM_waiting_below ops (NewRoundManager quorum) hq
    (by intro _; simpa [NewRoundManager] using hq) hw
  rwa [runRM_expected ops (NewRoundManager quorum)] at h

/-- Witness for C10: quorum 3, after the three round-0 submissions and an
`AdvanceRound`, the tracker is in `WAITING` with 0 < 3 recorded. -/
theorem reachable_waiting_below_quorum_witness :
    ((runRM (NewRoundManager 3)
        [RMOp.record "H1" 0, RMOp.record "H2" 0, RMOp.record "H3" 0,
         RMOp.advance]).ReceivedClients.length : Int) < 3 :=
  reachable_waiting_below_quorum 3 (by decide)
    [RMOp.record "H1" 0, RMOp.record "H2" 0, RMOp.record "H3" 0, RMOp.advance]
    (by decide)

/-- `Metadata` from `server/main.go`: identity and training metadata attached
to a hospital's update. -/
structure Metadata where
  HospitalID : String
  DataSize : Int
  Loss : ℚ
  RoundID : Int
  ModelVersion : Int
deriving DecidableEq, Repr

/-- `UpdatePacket` from `server/main.go`: the complete hand-off from a
hospital to the server. -/
structure UpdatePacket where
  Weights : List ℚ
  Metadata : Metadata
deriving DecidableEq, Repr

/-- The server's package-level mutable state (`server/main.go`):
`receivedUpdates`, `globalWeights` (a possibly-nil slice), `currentVersion`,
and the `roundManager` (constructed as `NewRoundManager(3)`). -/
structure ServerState where
  receivedUpdates : List UpdatePacket
  globalWeights : Option (List ℚ)
  currentVersion : Int
  roundManager : RoundManager
deriving DecidableEq, Repr

/-- The server state at process start: empty buffer, nil global weights,
version 0 (Go zero value), quorum-3 round manager for round 0. -/
def initialServer : ServerState :=
  { receivedUpdates := []
    globalWeights := none
    currentVersion := 0
    roundManager := NewRoundManager 3 }

/-- The inner loop of `aggregateUpdates`:
`for i, w := range packet.Weights { sumWeights[i] += w }`.
Adds the packet's weights into the accumulator positionally; a packet longer
than the accumulator indexes out of range, a runtime panic, modelled as
`none`.  A shorter packet silently leaves the remaining accumulator entries
untouched, exactly as the Go loop does. -/
def addInto : List ℚ → List ℚ → Option (List ℚ)
  | acc, [] => some acc
  | [], _ :: _ => none
  | a :: as, w :: ws => (addInto as ws).map (fun r => (a + w) :: r)

/-- The outer loop of `aggregateUpdates`:
`for _, packet := range receivedUpdates { ... }`. -/
def sumAll (init : List ℚ) (pkts : List UpdatePacket) : Option (List ℚ) :=
  pkts.foldlM (fun acc p => addInto acc p.Weights) init

/-- Lines 126–141 of `server/main.go`: size the sum buffer from the first
packet (`receivedUpdates[0]` — a panic on an empty slice, hence `none`),
sum every packet into it, then divide every entry by the number of
updates. -/
def computeAverage (updates : List UpdatePacket) : Option (List ℚ) :=
  match updates with
  | [] => none
  | p0 :: _ =>
    (sumAll (List.replicate p0.Weights.length 0) updates).map
      (fun sums => sums.map (fun x => x / (updates.length : ℚ)))

/-- `aggregateUpdates` from `server/main.go`: no-op below 3 buffered updates;
otherwise average, publish (`globalWeights`, `currentVersion++`), clear the
buffer, and advance the round manager.  `none` is the runtime panic of the
averaging loop. -/
def aggregateUpdates (s : ServerState) : Option ServerState :=
  if s.receivedUpdates.length < 3 then some s
  else
    (computeAverage s.receivedUpdates).map (fun newWeights =>
      { s with
          globalWeights := some newWeights
          currentVersion := s.currentVersion + 1
          receivedUpdates := []
          roundManager := AdvanceRound s.roundManager })

/-- `handleSubmitUpdate` from `server/main.go`, state part only: field
validation, `RecordUpdate`, and buffering of the accepted packet.  The
asynchronous `go aggregateUpdates()` is modelled as a separate `ServerOp`. -/
def handleSubmitUpdate (s : ServerState) (p : UpdatePacket) : ServerState :=
  if p.Weights.length = 0 ∨ p.Metadata.HospitalID = "" ∨ p.Metadata.DataSize ≤ 0 then
    s
  else
    let step := RecordUpdate s.roundManager p.Metadata.HospitalID p.Metadata.RoundID
    if step.2.1 then
      { s with roundManager := step.1, receivedUpdates := s.receivedUpdates ++ [p] }
    else
      { s with roundManager := step.1 }

/-- `handleGetGlobalModel` from `server/main.go`: `none` (HTTP 404) when
`globalWeights` is nil, otherwise the snapshot `(weights, model_version)`. -/
def readGlobalModel (s : ServerState) : Option (List ℚ × Int) :=
  s.globalWeights.map (fun w => (w, s.currentVersion))

/-- The server-level events: an inbound `/submit_update` request, or a run of
the background aggregation goroutine. -/
inductive ServerOp where
  | submit (p : UpdatePacket)
  | aggregate
deriving DecidableEq, Repr

/-- One server event.  `none` is a process crash (aggregation panic). -/
def stepServer (s : ServerState) : ServerOp → Option ServerState
  | .submit p => some (handleSubmitUpdate s p)
  | .aggregate => aggregateUpdates s

/-- Observation: the snapshot `(weights, version)` published by one event,
`none` when the event publishes nothing (a submit, or an aggregation run
below quorum). -/
def publishOf (s : ServerState) : ServerOp → Option (List ℚ × Int)
  | .submit _ => none
  | .aggregate =>
    if s.receivedUpdates.length < 3 then none
    else (computeAverage s.receivedUpdates).map (fun w => (w, s.currentVersion + 1))

/-- Run a sequence of server events, logging every published snapshot in
order. -/
def runLog (s : ServerState) : List ServerOp → Option (ServerState × List (List ℚ × Int))
  | [] => some (s, [])
  | op :: rest =>
    (stepServer s op).bind (fun s₁ =>
      (runLog s₁ rest).map (fun t => (t.1, (publishOf s op).toList ++ t.2)))

/-- The client simulator's round-0 packet from "H1": weights `[10, 20]`. -/
def examplePacket1 : UpdatePacket :=
  { Weights := [10, 20]
    Metadata := { HospitalID := "H1", DataSize := 100, Loss := 0,
                  RoundID := 0, ModelVersion := 0 } }

/-- The client simulator's round-0 packet from "H2": weights `[20, 40]`. -/
def examplePacket2 : UpdatePacket :=
  { Weights := [20, 40]
    Metadata := { HospitalID := "H2", DataSize := 100, Loss := 0,
                  RoundID := 0, ModelVersion := 0 } }

/-- The client simulator's round-0 packet from "H3": weights `[30, 60]`. -/
def examplePacket3 : UpdatePacket :=
  { Weights := [30, 60]
    Metadata := { HospitalID := "H3", DataSize := 100, Loss := 0,
                  RoundID := 0, ModelVersion := 0 } }

/-- The server state right after the three round-0 submissions were accepted
and quorum fired: three buffered packets, round 0 in `AGGREGATING`. -/
def exLoadedServer : ServerState :=
  { receivedUpdates := [examplePacket1, examplePacket2, examplePacket3]
    globalWeights := none
    currentVersion := 0
    roundManager := { CurrentRound := 0, ExpectedClients := 3,
                      ReceivedClients := ["H3", "H2", "H1"],
                      State := RoundState.Aggregating } }

/-- The server state after the first aggregation of the three example
packets: snapshot `[20, 40]`, version 1, round advanced to 1. -/
def exAggServer : ServerState :=
  { receivedUpdates := []
    globalWeights := some [20, 40]
    currentVersion := 1
    roundManager := { CurrentRound := 1, ExpectedClients := 3,
                      ReceivedClients := [], State := RoundState.Waiting } }

/-- Counterexample to C2 as stated: aggregating the first quorum of updates
leaves `currentVersion = 1`, not 0 — the version published by the first
successful aggregation is 1. -/
theorem version_after_first_publish_is_one :
    (aggregateUpdates exLoadedServer).map ServerState.currentVersion = some 1 ∧
      ((1 : Int) = 0 → False) := by
  refine ⟨?_, by decide⟩
  norm_num [aggregateUpdates, exLoadedServer, examplePacket1, examplePacket2, examplePacket3,
    computeAverage, sumAll, addInto, AdvanceRound, List.foldlM, List.replicate]

/-- C2 (amended): the version starts at 0 (Go zero value) and every
successful aggregation of a full batch increments it by exactly 1 — so it is
1 after the first publish and 2 after the second. -/
theorem currentVersion_increment (s s' : ServerState)
    (h3 : 3 ≤ s.receivedUpdates.length)
    (hagg : aggregateUpdates s = some s') :
    s'.currentVersion = s.currentVersion + 1 ∧ initialServer.currentVersion = 0 := by
  refine ⟨?_, rfl⟩
  unfold aggregateUpdates at hagg
  rw [if_neg (by omega)] at hagg
  cases hc : computeAverage s.receivedUpdates with
  | none => rw [hc] at hagg; simp at hagg
  | some w =>
    rw [hc, Option.map_some'] at hagg
    have := Option.some.inj hagg
    rw [← this]

/-- Witness for C2 (amended): aggregating the loaded example server takes
the version from 0 to 1. -/
theorem currentVersion_increment_witness :
    exAggServer.currentVersion = exLoadedServer.currentVersion + 1 ∧
      initialServer.currentVersion = 0 :=
  currentVersion_increment exLoadedServer exAggServer (by decide)
    (by norm_num [aggregateUpdates, exLoadedServer, exAggServer, examplePacket1,
      examplePacket2, examplePacket3, computeAverage, sumAll, addInto, AdvanceRound,
      List.foldlM, List.replicate])

/-- A round-0 packet from "H3" whose weight vector `[30]` is shorter than
the other packets' — the dimensionality-mismatch input. -/
def shortPacket3 : UpdatePacket :=
  { Weights := [30]
    Metadata := { HospitalID := "H3", DataSize := 100, Loss := 0,
                  RoundID := 0, ModelVersion := 0 } }

/-- The server state holding the mismatched round-0 batch
`[10,20]`, `[20,40]`, `[30]` at quorum. -/
def mismatchedServer : ServerState :=
  { receivedUpdates := [examplePacket1, examplePacket2, shortPacket3]
    globalWeights := none
    currentVersion := 0
    roundManager := { CurrentRound := 0, ExpectedClients := 3,
                      ReceivedClients := ["H3", "H2", "H1"],
                      State := RoundState.Aggregating } }

/-- C3 evaluated on the code (the claim fails): aggregation of the
mismatched batch `[10,20]`, `[20,40]`, `[30]` does NOT fail — it silently
computes a partial aggregate `[20, 20]` (dimension 1 sums only two of the
three packets), publishes it, increments the version to 1, and advances the
round to 1. -/
theorem mismatched_aggregation_publishes :
    aggregateUpdates mismatchedServer = some
      { receivedUpdates := []
        globalWeights := some [20, 20]
        currentVersion := 1
        roundManager := { CurrentRound := 1, ExpectedClients := 3,
                          ReceivedClients := [], State := RoundState.Waiting } } := by
  norm_num [aggregateUpdates, mismatchedServer, examplePacket1, examplePacket2, shortPacket3,
    computeAverage, sumAll, addInto, AdvanceRound, List.foldlM, List.replicate]

/-- Modelled from the spec's words ("unweighted arithmetic mean of
`weightVector` across all updates, per-dimension"): the vector whose `i`-th
entry is the sum of every update's `i`-th weight divided by the number of
updates. -/
def meanVector (d : ℕ) (updates : List UpdatePacket) : List ℚ :=
  (List.range d).map (fun i =>
    (updates.map (fun p => p.Weights.getD i 0)).sum / (updates.length : ℚ))

/-- On a packet of exactly the accumulator's length, the summing loop is
pointwise addition. -/
lemma addInto_eq_zipWith (pkt : List ℚ) :
    ∀ acc : List ℚ, pkt.length = acc.length →
      addInto acc pkt = some (List.zipWith (fun a b => a + b) acc pkt) := by
  induction pkt with
  | nil =>
    intro acc hlen
    have hacc : acc = [] := by
      cases acc with
      | nil => rfl
      | cons a as => simp at hlen
    subst hacc
    rfl
  | cons w ws ih =>
    intro acc hlen
    cases acc with
    | nil => simp at hlen
    | cons a as =>
      simp only [List.length_cons, Nat.succ.injEq] at hlen
      simp [addInto, ih as hlen]

/-- Fold invariant for the outer summing loop: on a batch of uniform
dimensionality equal to the accumulator's, the fold succeeds and each entry
of the result is the accumulator entry plus the per-dimension sum of the
batch. -/
lemma sumAll_spec :
    ∀ (updates : List UpdatePacket) (acc : List ℚ),
      (∀ p ∈ updates, p.Weights.length = acc.length) →
      ∃ r, sumAll acc updates = some r ∧ r.length = acc.length ∧
        ∀ i, i < acc.length →
          r.getD i 0 = acc.getD i 0 + (updates.map (fun p => p.Weights.getD i 0)).sum := by
  intro updates
  induction updates with
  | nil =>
    intro acc _
    exact ⟨acc, rfl, rfl, fun i _ => by simp⟩
  | cons p rest ih =>
    intro acc hlen
    have hp : p.Weights.length = acc.length := hlen p (List.mem_cons_self p rest)
    have hstep := addInto_eq_zipWith p.Weights acc hp
    have hlen' : (List.zipWith (fun a b => a + b) acc p.Weights).length = acc.length := by
      rw [List.length_zipWith, hp]
      exact min_self _
    have hrest : ∀ q ∈ rest,
        q.Weights.length = (List.zipWith (fun a b => a + b) acc p.Weights).length := by
      intro q hq
      rw [hlen']
      exact (hlen q (List.mem_cons_of_mem p hq)).trans rfl
    obtain ⟨r, hr, hrlen, hent⟩ := ih (List.zipWith (fun a b => a + b) acc p.Weights) hrest
    refine ⟨r, ?_, hrlen.trans hlen', ?_⟩
    · rw [sumAll, List.foldlM_cons, hstep]
      simpa [sumAll] using hr
    · intro i hi
      have hi' : i < (List.zipWith (fun a b => a + b) acc p.Weights).length := by
        rwa [hlen']
      have hipw : i < p.Weights.length := by rw [hp]; exact hi
      have hacc' : (List.zipWith (fun a b => a + b) acc p.Weights).getD i 0 =
          acc.getD i 0 + p.Weights.getD i 0 := by
        rw [List.getD_eq_getElem _ _ hi', List.getElem_zipWith,
            List.getD_eq_getElem _ _ hi, List.getD_eq_getElem _ _ hipw]
      rw [hent i hi', hacc', List.map_cons, List.sum_cons]
      ring

/-- C7: on every non-empty batch of updates of one shared weight-vector
length, `aggregateUpdates`'s averaging block produces exactly the
per-dimension unweighted arithmetic mean of the batch. -/
theorem computeAverage_is_mean (d : ℕ) (updates : List UpdatePacket)
    (hne : updates ≠ []) (hd : ∀ p ∈ updates, p.Weights.length = d) :
    computeAverage updates = some (meanVector d updates) := by
  cases updates with
  | nil => exact absurd rfl hne
  | cons p0 rest =>
    have hp0 : p0.Weights.length = d := hd p0 (List.mem_cons_self p0 rest)
    have hinit : (List.replicate p0.Weights.length (0 : ℚ)).length = d := by
      rw [List.length_replicate, hp0]
    obtain ⟨r, hr, hrlen, hent⟩ :=
      sumAll_spec (p0 :: rest) (List.replicate p0.Weights.length 0)
        (by intro q hq; rw [List.length_replicate, hp0]; exact hd q hq)
    simp only [computeAverage, hr, Option.map_some', Option.some.injEq]
    refine List.ext_getElem ?_ ?_
    · simp [meanVector, hrlen, hinit]
    · intro i h1 h2
      have hid : i < d := by
        simpa [meanVector] using h2
      have hidr : i < r.length := by rw [hrlen, hinit]; exact hid
      have hiacc : i < (List.replicate p0.Weights.length (0 : ℚ)).length := by
        rw [hinit]; exact hid
      have hzero : (List.replicate p0.Weights.length (0 : ℚ)).getD i 0 = 0 := by
        rw [List.getD_eq_getElem _ _ hiacc, List.getElem_replicate]
      have hri : r.getD i 0 =
          ((p0 :: rest).map (fun p => p.Weights.getD i 0)).sum := by
        rw [hent i hiacc, hzero, zero_add]
      rw [List.getElem_map]
      simp only [meanVector, List.getElem_map, List.getElem_range]
      rw [← List.getD_eq_getElem r 0 hidr, hri]

/-- Witness for C7: the simulator batch `[10,20]`, `[20,40]`, `[30,60]`
averages to `[20,40]`. -/
theorem computeAverage_is_mean_witness :
    computeAverage [examplePacket1, examplePacket2, examplePacket3] =
      some (meanVector 2 [examplePacket1, examplePacket2, examplePacket3]) ∧
    meanVector 2 [examplePacket1, examplePacket2, examplePacket3] = [20, 40] := by
  constructor
  · exact computeAverage_is_mean 2 [examplePacket1, examplePacket2, examplePacket3]
      (by decide) (by decide)
  · norm_num [meanVector, examplePacket1, examplePacket2, examplePacket3, List.range_succ]

section ReadPathLemmas

/-- A submit request never touches the published model or the version. -/
lemma handleSubmit_read (s : ServerState) (p : UpdatePacket) :
    readGlobalModel (handleSubmitUpdate s p) = readGlobalModel s := by
  unfold handleSubmitUpdate
  split
  · rfl
  · simp only
    split <;> rfl

/-- One server event changes the read result exactly to the snapshot it
publishes, if any. -/
lemma stepServer_read (s s' : ServerState) (op : ServerOp)
    (h : stepServer s op = some s') :
    readGlobalModel s' = Option.or (publishOf s op) (readGlobalModel s) := by
  cases op with
  | submit p =>
    simp only [stepServer, Option.some.injEq] at h
    rw [← h, handleSubmit_read]
    rfl
  | aggregate =>
    simp only [stepServer] at h
    by_cases h3 : s.receivedUpdates.length < 3
    · unfold aggregateUpdates at h
      rw [if_pos h3] at h
      rw [← Option.some.inj h]
      simp [publishOf, if_pos h3, Option.none_or]
    · unfold aggregateUpdates at h
      rw [if_neg h3] at h
      cases hc : computeAverage s.receivedUpdates with
      | none => rw [hc] at h; simp at h
      | some w =>
        rw [hc, Option.map_some'] at h
        rw [← Option.some.inj h]
        simp [publishOf, if_neg h3, hc, readGlobalModel, Option.or]

/-- `getLast?` of a cons is the last of the tail, defaulting to the head. -/
lemma getLast?_cons_or {α : Type} (a : α) (l : List α) :
    (a :: l).getLast? = Option.or l.getLast? (some a) := by
  cases l with
  | nil => rfl
  | cons b bs =>
    rw [List.getLast?_cons_cons]
    cases hz : (b :: bs).getLast? with
    | none => exact absurd (List.getLast?_eq_none_iff.mp hz) (by simp)
    | some z => rfl

/-- The read result after a run equals the last snapshot published during
the run, falling back to whatever was readable at the start. -/
lemma runLog_read (ops : List ServerOp) :
    ∀ (s s' : ServerState) (log : List (List ℚ × Int)),
      runLog s ops = some (s', log) →
      readGlobalModel s' = Option.or log.getLast? (readGlobalModel s) := by
  induction ops with
  | nil =>
    intro s s' log h
    simp only [runLog, Option.some.injEq, Prod.mk.injEq] at h
    rw [← h.1, ← h.2]
    simp [Option.none_or]
  | cons op rest ih =>
    intro s s' log h
    simp only [runLog] at h
    cases hstep : stepServer s op with
    | none => rw [hstep] at h; simp at h
    | some s₁ =>
      rw [hstep, Option.some_bind] at h
      cases hrun : runLog s₁ rest with
      | none => rw [hrun] at h; simp at h
      | some t =>
        rw [hrun, Option.map_some'] at h
        have ht := Option.some.inj h
        have hs' : t.1 = s' := congrArg Prod.fst ht
        have hlog : (publishOf s op).toList ++ t.2 = log := congrArg Prod.snd ht
        rw [← hs', ← hlog, ih s₁ t.1 t.2 (by rw [hrun]),
            stepServer_read s s₁ op hstep]
        cases hp : publishOf s op with
        | none => simp [Option.none_or]
        | some pb =>
          simp only [Option.toList, List.singleton_append]
          rw [getLast?_cons_or, Option.or_assoc]

end ReadPathLemmas

/-- C8: over any event sequence from the initial server state, reading the
global model yields "not found" exactly when no aggregation has published a
snapshot, and otherwise yields the latest published snapshot (weights and
version). -/
theorem globalModel_read_iff_published (ops : List ServerOp)
    (s : ServerState) (log : List (List ℚ × Int))
    (h : runLog initialServer ops = some (s, log)) :
    (readGlobalModel s = none ↔ log = []) ∧ readGlobalModel s = log.getLast? := by
  have hr := runLog_read ops initialServer s log h
  have hinit : readGlobalModel initialServer = none := rfl
  rw [hinit, Option.or_none] at hr
  exact ⟨by rw [hr]; exact List.getLast?_eq_none_iff, hr⟩

/-- The server state after the first two accepted round-0 submissions. -/
def exSt1 : ServerState :=
  { receivedUpdates := [examplePacket1], globalWeights := none, currentVersion := 0,
    roundManager := { CurrentRound := 0, ExpectedClients := 3,
                      ReceivedClients := ["H1"], State := RoundState.Waiting } }

/-- The server state after the second accepted round-0 submission. -/
def exSt2 : ServerState :=
  { receivedUpdates := [examplePacket1, examplePacket2], globalWeights := none,
    currentVersion := 0,
    roundManager := { CurrentRound := 0, ExpectedClients := 3,
                      ReceivedClients := ["H2", "H1"], State := RoundState.Waiting } }

/-- Witness for C8: the simulator trace — three round-0 submissions then the
aggregation — publishes exactly one snapshot `([20,40], 1)`, and reading
afterwards returns it. -/
theorem globalModel_read_iff_published_witness :
    (readGlobalModel exAggServer = none ↔
      ([([20, 40], 1)] : List (List ℚ × Int)) = []) ∧
    readGlobalModel exAggServer = ([([20, 40], 1)] : List (List ℚ × Int)).getLast? := by
  have hs1 : handleSubmitUpdate initialServer examplePacket1 = exSt1 := by decide
  have hs2 : handleSubmitUpdate exSt1 examplePacket2 = exSt2 := by decide
  have hs3 : handleSubmitUpdate exSt2 examplePacket3 = exLoadedServer := by decide
  have hagg : aggregateUpdates exLoadedServer = some exAggServer := by
    norm_num [aggregateUpdates, exLoadedServer, exAggServer, examplePacket1,
      examplePacket2, examplePacket3, computeAverage, sumAll, addInto, AdvanceRound,
      List.foldlM, List.replicate]
  have hp1 : publishOf initialServer (ServerOp.submit examplePacket1) = none := rfl
  have hp2 : publishOf exSt1 (ServerOp.submit examplePacket2) = none := rfl
  have hp3 : publishOf exSt2 (ServerOp.submit examplePacket3) = none := rfl
  have hp4 : publishOf exLoadedServer ServerOp.aggregate = some ([20, 40], 1) := by
    norm_num [publishOf, exLoadedServer, examplePacket1, examplePacket2, examplePacket3,
      computeAverage, sumAll, addInto, List.foldlM, List.replicate]
  have hrun : runLog initialServer
      [ServerOp.submit examplePacket1, ServerOp.submit examplePacket2,
       ServerOp.submit examplePacket3, ServerOp.aggregate] =
      some (exAggServer, [([20, 40], 1)]) := by
    simp only [runLog, stepServer, hs1, hs2, hs3, hagg, hp1, hp2, hp3, hp4,
      Option.some_bind, Option.toList, Option.map_some', List.nil_append,
      List.append_nil]
  exact globalModel_read_iff_published _ exAggServer [([20, 40], 1)] hrun
